import Mathlib

/-! Verification development for the canada-pizza-pricing-analytics repository.

The repository is a set of Python harvesters (Dominos, Pizza Hut and
Pizza Pizza scrapers) plus a DuckDB dimensional-model builder.  This file
gives a shallow embedding of the functions the checked claims talk about:

* a JSON-like value type `JVal` standing for the Python dicts/lists that
  `json.loads` produces, with Python truthiness, `dict.get`, `or`-chains
  and string coercion modelled explicitly;
* the Dominos extraction core: `as_float`, `price_of`,
  `collect_products_and_variants` (node classification, variant-code
  synthesis, de-duplication), `collect_category_index`,
  `collect_category_strings`, `derive_size` and its regex helpers;
* the Pizza Hut normalizers `normalize_size` / `normalize_crust`,
  `price_from_variant`, and an explicit-state model of the
  `blast_all` wave loop and the `fetch_json` STOP_FLAG gate;
* the Pizza Pizza `_canonical_crust` and the final `product_key` filter,
  together with the staging filter of the model builder.

Numbers are modelled as exact rationals (`ℚ`): JSON numbers are decimal
literals, and no checked claim depends on binary floating-point rounding
artifacts.  Python `round(x, 2)` is modelled as exact round-half-to-even
at two decimals.  Regex searches from the source are implemented as
explicit left-to-right scanners; where the digit
quantifier is followed by a continuation that cannot start with a digit,
greedy matching with backtracking is equivalent to taking the maximal
digit run, and the scanners use that form.
-/

namespace PizzaPricing

/-- JSON-like values as produced by `json.loads` (Python bools are kept as
a separate constructor; the source never exercises Python bool-is-int
subtyping in the fragments the claims cover). -/
inductive JVal where
  | null : JVal
  | bool (b : Bool) : JVal
  | num (q : ℚ) : JVal
  | str (s : String) : JVal
  | arr (xs : List JVal) : JVal
  | obj (fields : List (String × JVal)) : JVal

/-- First binding of a key in a Python dict (keys are unique; first match). -/
def lookupF : List (String × JVal) → String → Option JVal
  | [], _ => none
  | (k, v) :: rest, key => if k == key then some v else lookupF rest key

/-- Shallow model: `d.get(k)` on a dict: absent keys give Python `None`.  Applied
only where the source has guaranteed (by an `isinstance` guard, the
iteration shape or the call contract) that the receiver is a dict;
`.get` on a non-dict raises `AttributeError` in Python, and the one
source site whose receiver may not be a dict — the root call of
`collect_products_and_variants` — is modelled as an explicit error
there. -/
def jget : JVal → String → JVal
  | .obj fs, k => (lookupF fs k).getD .null
  | _, _ => .null

/-- Python truthiness of a JSON value. -/
def jTruthy : JVal → Bool
  | .null => false
  | .bool b => b
  | .num q => q != 0
  | .str s => s != ""
  | .arr xs => !xs.isEmpty
  | .obj fs => !fs.isEmpty

/-- Python `a or b`: `a` when truthy, else `b`. -/
def jOr (a b : JVal) : JVal := if jTruthy a then a else b

/-- The fields of a dict (empty for non-dicts). -/
def jfields : JVal → List (String × JVal)
  | .obj fs => fs
  | _ => []

/-- Set a key in a dict field list: replace in place when present
(Python dicts keep the original position), append otherwise. -/
def setF : List (String × JVal) → String → JVal → List (String × JVal)
  | [], k, v => [(k, v)]
  | (k0, v0) :: rest, k, v =>
    if k0 == k then (k0, v) :: rest else (k0, v0) :: setF rest k v

/-! Section: Python string primitives

All string functions below work on `String.data` character lists: the
corresponding core `String` functions recurse on byte positions, which the
kernel cannot evaluate, while these definitions compute. -/

/-- ASCII lowering, Python `str.lower()` on the ASCII inputs the claims use. -/
def lowerStr (s : String) : String := ⟨s.data.map Char.toLower⟩

def stripL (cs : List Char) : List Char :=
  ((cs.dropWhile Char.isWhitespace).reverse.dropWhile Char.isWhitespace).reverse

/-- Python `str.strip()` (whitespace at both ends). -/
def stripStr (s : String) : String := ⟨stripL s.data⟩

/-- Python `str.replace(a, b)` for one-character `a` and `b`. -/
def replaceChar (a b : Char) (s : String) : String :=
  ⟨s.data.map fun c => if c == a then b else c⟩

/-- Python `str.replace(a, "")` for a one-character `a`. -/
def removeChar (a : Char) (s : String) : String :=
  ⟨s.data.filter fun c => !(c == a)⟩

/-- Shallow model: `needle` occurs in `hay` starting at its head. -/
def listStartsWith : List Char → List Char → Bool
  | [], _ => true
  | _ :: _, [] => false
  | a :: as, b :: bs => a == b && listStartsWith as bs

/-- Shallow model: `needle` occurs somewhere in `hay` (Python `needle in hay` on str). -/
def listContainsSeq : List Char → List Char → Bool
  | n, [] => listStartsWith n []
  | n, h :: t => listStartsWith n (h :: t) || listContainsSeq n t

/-- Python `needle in hay` for strings. -/
def pyIn (needle hay : String) : Bool := listContainsSeq needle.data hay.data

/-- Helper for `pyTitle`: the Bool records whether the previous character
was alphabetic. -/
def titleAux : Bool → List Char → List Char
  | _, [] => []
  | prev, c :: cs =>
    if c.isAlpha then
      (if prev then c.toLower else c.toUpper) :: titleAux true cs
    else
      c :: titleAux false cs

/-- Python `str.title()` on ASCII text: a letter is uppercased when it does
not follow another letter, lowercased otherwise. -/
def pyTitle (s : String) : String := ⟨titleAux false s.data⟩

/-- Shallow model: `re.split` on a whitespace class, splitting on a character class: separator
runs are merged, leading/trailing separators produce empty tokens, `""`
splits to `[""]`.  The accumulator is `some cur` while inside a token,
`none` inside a separator run. -/
def splitRunsAux (p : Char → Bool) : List Char → Option (List Char) → List String
  | [], some cur => [⟨cur.reverse⟩]
  | [], none => [""]
  | c :: cs, some cur =>
    if p c then String.mk cur.reverse :: splitRunsAux p cs none
    else splitRunsAux p cs (some (c :: cur))
  | c :: cs, none =>
    if p c then splitRunsAux p cs none
    else splitRunsAux p cs (some [c])

def pySplitRuns (p : Char → Bool) (s : String) : List String :=
  splitRunsAux p s.data (some [])

/-- The non-empty maximal runs of non-whitespace characters. -/
def wsTokens (s : String) : List String :=
  (pySplitRuns Char.isWhitespace s).filter (fun t => t != "")

/-- Shallow model: `tidy` from dominos_scraper.py on a string: collapse whitespace runs to
one space and strip (NFKC normalization and HTML unescaping are the
identity on the ASCII inputs the claims use). -/
def tidy (s : String) : String := String.intercalate " " (wsTokens s)

/-- A minimal `str()` for the scalar values the claims touch; the rendering
of containers and of numbers is abstract (no checked property depends on
it). -/
def pyStrJ : JVal → String
  | .str s => s
  | .null => "None"
  | .bool b => if b then "True" else "False"
  | .num q => toString q
  | .arr _ => "<list>"
  | .obj _ => "<dict>"

/-- Shallow model: `tidy(t)` from dominos_scraper.py: `None` maps to `""`, everything else
is stringified and whitespace-normalized. -/
def tidyJ : JVal → String
  | .null => ""
  | v => tidy (pyStrJ v)

/-! Section: Numeric parsing (`float()` / `int()` on the shapes the source feeds them) -/

def digitsToNat (ds : List Char) : Nat :=
  ds.foldl (fun a c => a * 10 + (c.toNat - '0'.toNat)) 0

def takeDigitRun (cs : List Char) : List Char × List Char :=
  (cs.takeWhile Char.isDigit, cs.dropWhile Char.isDigit)

/-- Unsigned decimal body of Python `float()`: `digits`, `digits.digits`,
`digits.` or `.digits` (exponents and the inf/nan spellings never occur in
the payloads the claims cover). -/
def parseNumCore (cs : List Char) : Option ℚ :=
  let ds := cs.takeWhile Char.isDigit
  match cs.dropWhile Char.isDigit with
  | '.' :: r2 =>
    let fs := r2.takeWhile Char.isDigit
    if r2.dropWhile Char.isDigit != [] then none
    else if ds == [] && fs == [] then none
    else some ((digitsToNat ds : ℚ) + (digitsToNat fs : ℚ) / ((10 : ℚ) ^ fs.length))
  | [] => if ds == [] then none else some (digitsToNat ds : ℚ)
  | _ => none

/-- Python `float(s)`: surrounding whitespace is ignored, one optional sign. -/
def parseNumStr (s : String) : Option ℚ :=
  match (stripStr s).data with
  | '-' :: rest => (parseNumCore rest).map (fun q => -q)
  | '+' :: rest => parseNumCore rest
  | cs => parseNumCore cs

/-- Truncation toward zero, Python `int()` applied to a float. -/
def truncQ (q : ℚ) : ℤ := q.num / q.den

/-- Python `int(s)`: optional sign, all digits. -/
def parseIntStr (s : String) : Option ℤ :=
  match (stripStr s).data with
  | '-' :: rest =>
    if rest != [] && rest.all Char.isDigit then some (-(digitsToNat rest : ℤ)) else none
  | '+' :: rest =>
    if rest != [] && rest.all Char.isDigit then some (digitsToNat rest : ℤ) else none
  | cs =>
    if cs != [] && cs.all Char.isDigit then some (digitsToNat cs : ℤ) else none

/-- Python `int(v)` on the values `cents_to_dollars` receives: floats
truncate toward zero, strings must be integer literals. -/
def pyInt (v : JVal) : Option ℤ :=
  match v with
  | .num q => some (truncQ q)
  | .str s => parseIntStr s
  | _ => none

/-- Floor of a rational as floor division of numerator by denominator. -/
def floorQ (q : ℚ) : ℤ := q.num.fdiv q.den

/-- Round-half-to-even to an integer. -/
def roundHalfEven (q : ℚ) : ℤ :=
  let f : ℤ := floorQ q
  let r : ℚ := q - (f : ℚ)
  if r < 1/2 then f
  else if 1/2 < r then f + 1
  else if f % 2 = 0 then f else f + 1

/-- Python `round(x, 2)` modelled exactly on rationals. -/
def round2 (q : ℚ) : ℚ := ((roundHalfEven (q * 100) : ℚ)) / 100

/-! Section: Regex scanning primitives

The source uses `re.search` / `re.match` with a handful of fixed patterns.
They are modelled as explicit left-to-right scanners.  A pattern function
receives the character before the current position (for `\b` / lookbehind)
and the remaining characters, and returns the formatted result on a match.
-/

/-- Regex word character (`\w`): alphanumeric or underscore (ASCII). -/
def isWordC (c : Char) : Bool := c.isAlphanum || c == '_'

/-- Shallow model: `\b` immediately before a word character. -/
def bdryBefore (prev : Option Char) : Bool :=
  match prev with
  | none => true
  | some p => !isWordC p

/-- Shallow model: `\b` immediately after a word character. -/
def bdryAfter (cs : List Char) : Bool :=
  match cs with
  | [] => true
  | c :: _ => !isWordC c

/-- Shallow model: `(?!\d)` / `(?=\D|$)`: next character, if any, is not a digit. -/
def nonDigitAfter (cs : List Char) : Bool :=
  match cs with
  | [] => true
  | c :: _ => !c.isDigit

/-- Shallow model: `\s*`. -/
def skipWs (cs : List Char) : List Char := cs.dropWhile Char.isWhitespace

/-- Case-insensitive literal prefix: consume `lit` (ignoring ASCII case)
and return the rest. -/
def ciDropL : List Char → List Char → Option (List Char)
  | [], cs => some cs
  | _ :: _, [] => none
  | l :: ls, c :: cs => if l.toLower == c.toLower then ciDropL ls cs else none

def ciDrop (lit : String) (cs : List Char) : Option (List Char) := ciDropL lit.data cs

/-- Shallow model: `(\d{lo,hi})` when the continuation of the pattern cannot begin with a
digit (true for every pattern in the source): greedy matching with
backtracking is then equivalent to taking the whole digit run and
requiring its length to lie in `[lo, hi]`. -/
def digitGroup (lo hi : Nat) (cs : List Char) : Option (String × List Char) :=
  let ds := cs.takeWhile Char.isDigit
  if lo ≤ ds.length && ds.length ≤ hi then some (⟨ds⟩, cs.dropWhile Char.isDigit)
  else none

/-- Shallow model: `(\d+(?:\.\d+)?)` with a continuation that cannot begin with a digit. -/
def decimalGroup (cs : List Char) : Option (String × List Char) :=
  let ds := cs.takeWhile Char.isDigit
  let r1 := cs.dropWhile Char.isDigit
  if ds.length == 0 then none
  else
    match r1 with
    | '.' :: r2 =>
      let fs := r2.takeWhile Char.isDigit
      if fs.length == 0 then some (⟨ds⟩, r1)
      else some (⟨ds ++ '.' :: fs⟩, r2.dropWhile Char.isDigit)
    | _ => some (⟨ds⟩, r1)

/-- Shallow model: `re.search`: try the pattern at each position from the left. -/
def scanAux (f : Option Char → List Char → Option String) :
    Option Char → List Char → Option String
  | _, [] => none
  | prev, c :: cs =>
    match f prev (c :: cs) with
    | some r => some r
    | none => scanAux f (some c) cs

def searchStr (f : Option Char → List Char → Option String) (s : String) : Option String :=
  scanAux f none s.data

/-- Shallow model: `re.search` for Bool-valued patterns that cannot match empty text. -/
def scanBoolAux (f : List Char → Bool) : List Char → Bool
  | [] => false
  | c :: cs => f (c :: cs) || scanBoolAux f cs

/-! Section: Pizza Hut `normalize_size` (pizza_hut_scraper.py:187-220) -/

/-- The ordered alternatives of `_NUM_INCH =
`(?<!\d)(8|9|10|11|12|13|14|15|16|18|20|22|24)(?!\d)``. -/
def NUM_INCH_ALTS : List String :=
  ["8", "9", "10", "11", "12", "13", "14", "15", "16", "18", "20", "22", "24"]

/-- One position of the `_NUM_INCH` search: lookbehind `(?<!\d)`, then the
ordered alternation, then lookahead `(?!\d)`. -/
def numInchPat (prev : Option Char) (cs : List Char) : Option String :=
  if (match prev with | none => true | some p => !p.isDigit) then
    NUM_INCH_ALTS.findSome? fun a =>
      if listStartsWith a.data cs && nonDigitAfter (cs.drop a.length) then some a
      else none
  else none

def numInchSearch (s : String) : Option String := searchStr numInchPat s

/-- The token chain of `normalize_size` applied to the cleaned text: the
`_NUM_INCH` pattern first, then the named tiers, else the `"Medium"`
default. -/
def sizeTokenOf (s : String) : String :=
  match numInchSearch s with
  | some n => n ++ "\""
  | none =>
    if pyIn "personal" s then "Personal"
    else if pyIn "small" s then "Small"
    else if pyIn "medium" s then "Medium"
    else if pyIn "large" s then "Large"
    else if pyIn "x-large" s || pyIn "xlarge" s || pyIn "xl" s then "X-Large"
    else "Medium"

/-- Shallow model: `normalize_size` from pizza_hut_scraper.py. -/
def normalize_size (size_val : String) (fallback_from_text : String) : String :=
  let s0 := if size_val == "" then "" else replaceChar '_' '-' (lowerStr (stripStr size_val))
  let s := if s0 == "" && fallback_from_text != "" then lowerStr (stripStr fallback_from_text)
           else s0
  sizeTokenOf s

/-! Section: Pizza Hut `normalize_crust` (pizza_hut_scraper.py:223-269) -/

/-- Shallow model: `t.split(pat, 1)[-1]`: the text after the first occurrence of `pat`,
or the whole string when `pat` does not occur. -/
def afterFirstAux (pat : List Char) : List Char → List Char
  | [] => []
  | c :: cs =>
    if listStartsWith pat (c :: cs) then (c :: cs).drop pat.length
    else afterFirstAux pat cs

def afterSplit1Last (pat s : String) : String :=
  if pyIn pat s then ⟨afterFirstAux pat.data s.data⟩ else s

/-- Shallow model: `_crust_from_keyish` from pizza_hut_scraper.py. -/
def crust_from_keyish (txt : String) : String :=
  let cand :=
    if pyIn "Crusts." txt then afterSplit1Last "Crusts." txt
    else
      let parts := pySplitRuns (fun c => c == '.' || c.isWhitespace) (stripStr txt)
      parts.getLastD ""
  pyTitle (stripStr (replaceChar '-' ' ' cand))

/-- Last (case-insensitive) occurrence of `pat`, returning the suffix after
it; `none` when `pat` does not occur.  Models the greedy
`re.sub(r"^.*Crusts\.", "", s, flags=re.I)`. -/
def lastCIMatchSuffix (pat : List Char) : List Char → Option (List Char)
  | [] => none
  | c :: cs =>
    match lastCIMatchSuffix pat cs with
    | some r => some r
    | none =>
      match ciDropL pat (c :: cs) with
      | some r => some r
      | none => none

def stripAfterCrustsCI (s : String) : String :=
  match lastCIMatchSuffix "Crusts.".data s.data with
  | some r => ⟨r⟩
  | none => s

def lookupS : List (String × String) → String → Option String
  | [], _ => none
  | (k, v) :: rest, key => if k == key then some v else lookupS rest key

/-- The controlled-vocabulary mapping inside `normalize_crust`. -/
def PH_CRUST_MAPPING : List (String × String) :=
  [("hand tossed", "Hand Tossed"),
   ("handcrafted", "Handcrafted"),
   ("original pan", "Original Pan"),
   ("pan", "Pan"),
   ("stuffed", "Stuffed Crust"),
   ("stuffed crust", "Stuffed Crust"),
   ("thin ’n’ crispy", "Thin ’n’ Crispy"),
   ("thin \x27n\x27 crispy", "Thin ’n’ Crispy"),
   ("thin n crispy", "Thin ’n’ Crispy"),
   ("thin", "Thin ’n’ Crispy"),
   ("gluten free", "Gluten Free"),
   ("regular", "Regular Dough"),
   ("regular dough", "Regular Dough")]

/-- The body of `normalize_crust` after the initial source selection:
strip everything through a `Crusts.` prefix, turn dots into spaces, strip,
look the lowercase form up in the vocabulary, else title-case. -/
def normCrustCore (s0 : String) : String :=
  let s := stripStr (replaceChar '.' ' ' (stripAfterCrustsCI s0))
  let low := lowerStr s
  if low == "" then "Regular Dough"
  else (lookupS PH_CRUST_MAPPING low).getD (pyTitle s)

/-- Shallow model: `normalize_crust` from pizza_hut_scraper.py. -/
def normalize_crust (crust_val : String) (fallback_from_key : String) : String :=
  if crust_val != "" then normCrustCore (stripStr crust_val)
  else if fallback_from_key != "" then normCrustCore (crust_from_keyish fallback_from_key)
  else "Regular Dough"

/-! Section: Pizza Hut price extraction (pizza_hut_scraper.py:285-327) -/

def numOf : JVal → Option ℚ
  | .num q => some q
  | _ => none

/-- Shallow model: `cents_to_dollars` from pizza_hut_scraper.py. -/
def cents_to_dollars (v : JVal) : Option ℚ :=
  (pyInt v).map (fun n => round2 ((n : ℚ) / 100))

/-- Shallow model: `price_from_variant` from pizza_hut_scraper.py: best-effort price from a
variant dict with product-level fallback.  Each candidate section falls
through to the next on failure exactly as in the source; `""` (no price)
is `none`. -/
def price_from_variant (v : JVal) (prod : JVal) : Option ℚ :=
  let step1 : Option ℚ :=
    match jget v "price" with
    | .num q => some (round2 q)
    | .obj fs =>
      match ["amount", "value", "price"].findSome? (fun k => (lookupF fs k).bind numOf) with
      | some q => some (round2 q)
      | none =>
        match lookupF fs "cents" with
        | some cv => cents_to_dollars cv
        | none => none
    | _ => none
  match step1 with
  | some r => some r
  | none =>
    match ["unitPrice", "value", "amount"].findSome? (fun k => numOf (jget v k)) with
    | some q => some (round2 q)
    | none =>
      let step3 : Option ℚ :=
        match lookupF (jfields v) "priceCents" with
        | some pv => cents_to_dollars pv
        | none => none
      match step3 with
      | some r => some r
      | none =>
        if jTruthy prod then
          match numOf (jget prod "price") with
          | some q => some (round2 q)
          | none =>
            match lookupF (jfields prod) "priceCents" with
            | some (.num q) =>
              -- `isinstance(prod["priceCents"], int)`: a JSON integer literal
              if q.den == 1 then cents_to_dollars (.num q) else none
            | _ => none
        else none

/-- The full prioritized candidate list of `price_from_variant`, written
the way the spec describes the search: direct numeric `price`, nested
amount-object fields `amount`/`value`/`price`, nested `cents`, top-level
`unitPrice`/`value`/`amount`, `priceCents`, then the two product-level
fallbacks. -/
def pfvCandidates (v prod : JVal) : List (Option ℚ) :=
  [(match jget v "price" with | .num q => some (round2 q) | _ => none),
   (match jget v "price" with
    | .obj fs =>
      match ["amount", "value", "price"].findSome? (fun k => (lookupF fs k).bind numOf) with
      | some q => some (round2 q)
      | none => none
    | _ => none),
   (match jget v "price" with
    | .obj fs =>
      match lookupF fs "cents" with
      | some cv => cents_to_dollars cv
      | none => none
    | _ => none),
   (match ["unitPrice", "value", "amount"].findSome? (fun k => numOf (jget v k)) with
    | some q => some (round2 q)
    | none => none),
   (match lookupF (jfields v) "priceCents" with
    | some pv => cents_to_dollars pv
    | none => none),
   (if jTruthy prod then
      match numOf (jget prod "price") with
      | some q => some (round2 q)
      | none => none
    else none),
   (if jTruthy prod then
      match lookupF (jfields prod) "priceCents" with
      | some (.num q) => if q.den == 1 then cents_to_dollars (.num q) else none
      | _ => none
    else none)]

/-- The spec formulation of the Pizza Hut variant price extraction: the
first candidate of the prioritized list that parses as a number, `""`
(`none`) otherwise. -/
def pfvSpec (v prod : JVal) : Option ℚ :=
  (pfvCandidates v prod).findSome? id

/-! Section: Dominos size derivation (dominos_scraper.py:154-281, 490-510) -/

/-- Shallow model: `\b(\d{1,2})\s*(?:"|”)\s*(?=\D|$)` — after the quote, `\s*(?=\D|$)`
succeeds iff the next character is absent or not a digit (whitespace is
itself not a digit, and the star can backtrack to zero). -/
def szPatInchQuote (prev : Option Char) (cs : List Char) : Option String :=
  if bdryBefore prev then
    match digitGroup 1 2 cs with
    | some (g, r1) =>
      match skipWs r1 with
      | '"' :: r3 => if nonDigitAfter r3 then some (g ++ "\"") else none
      | '”' :: r3 => if nonDigitAfter r3 then some (g ++ "\"") else none
      | _ => none
    | none => none
  else none

/-- Shallow model: `\b(\d{1,2})\s*(?:inch|in)\b` (case-insensitive, ordered alternation). -/
def szPatInchWord (prev : Option Char) (cs : List Char) : Option String :=
  if bdryBefore prev then
    match digitGroup 1 2 cs with
    | some (g, r1) =>
      let r2 := skipWs r1
      match ciDrop "inch" r2 with
      | some r3 =>
        if bdryAfter r3 then some (g ++ "\"")
        else
          match ciDrop "in" r2 with
          | some r4 => if bdryAfter r4 then some (g ++ "\"") else none
          | none => none
      | none =>
        match ciDrop "in" r2 with
        | some r4 => if bdryAfter r4 then some (g ++ "\"") else none
        | none => none
    | none => none
  else none

/-- Shallow model: `\b(\d{2,4})\s*m\s*l\b` (case-insensitive). -/
def szPatML (prev : Option Char) (cs : List Char) : Option String :=
  if bdryBefore prev then
    match digitGroup 2 4 cs with
    | some (g, r1) =>
      match ciDrop "m" (skipWs r1) with
      | some r2 =>
        match ciDrop "l" (skipWs r2) with
        | some r3 => if bdryAfter r3 then some (g ++ " mL") else none
        | none => none
      | none => none
    | none => none
  else none

/-- The optional `(?:itre|iter|iters|itres)?` suffix followed by `\b`,
with the ordered alternation and fallback to the empty branch. -/
def litreSuffixOk (cs : List Char) : Bool :=
  (match ciDrop "itre" cs with | some r => bdryAfter r | none => false) ||
  (match ciDrop "iter" cs with | some r => bdryAfter r | none => false) ||
  (match ciDrop "iters" cs with | some r => bdryAfter r | none => false) ||
  (match ciDrop "itres" cs with | some r => bdryAfter r | none => false) ||
  bdryAfter cs

/-- Shallow model: `\b(\d+(?:\.\d+)?)\s*l(?:itre|iter|iters|itres)?\b` (case-insensitive). -/
def szPatLitre (prev : Option Char) (cs : List Char) : Option String :=
  if bdryBefore prev then
    match decimalGroup cs with
    | some (g, r1) =>
      match ciDrop "l" (skipWs r1) with
      | some r2 => if litreSuffixOk r2 then some (g ++ " L") else none
      | none => none
    | none => none
  else none

/-- Shallow model: `\b(\d+(?:\.\d+)?)\s*l\b` (case-insensitive). -/
def szPatL (prev : Option Char) (cs : List Char) : Option String :=
  if bdryBefore prev then
    match decimalGroup cs with
    | some (g, r1) =>
      match ciDrop "l" (skipWs r1) with
      | some r2 => if bdryAfter r2 then some (g ++ " L") else none
      | none => none
    | none => none
  else none

/-- Shallow model: `\b(\d{1,3})\s*-\s*piece\b` (case-insensitive). -/
def szPatDashPiece (prev : Option Char) (cs : List Char) : Option String :=
  if bdryBefore prev then
    match digitGroup 1 3 cs with
    | some (g, r1) =>
      match skipWs r1 with
      | '-' :: r2 =>
        match ciDrop "piece" (skipWs r2) with
        | some r3 => if bdryAfter r3 then some (g ++ "-Piece") else none
        | none => none
      | _ => none
    | none => none
  else none

/-- Shallow model: `\b(\d{1,3})\s*pc\b` (case-insensitive). -/
def szPatPc (prev : Option Char) (cs : List Char) : Option String :=
  if bdryBefore prev then
    match digitGroup 1 3 cs with
    | some (g, r1) =>
      match ciDrop "pc" (skipWs r1) with
      | some r2 => if bdryAfter r2 then some (g ++ " pc") else none
      | none => none
    | none => none
  else none

/-- Shallow model: `\b(\d{1,3})\s*pieces\b` (case-insensitive). -/
def szPatPieces (prev : Option Char) (cs : List Char) : Option String :=
  if bdryBefore prev then
    match digitGroup 1 3 cs with
    | some (g, r1) =>
      match ciDrop "pieces" (skipWs r1) with
      | some r2 => if bdryAfter r2 then some (g ++ "-Piece") else none
      | none => none
    | none => none
  else none

/-- The eight patterns of `parse_size_from_text`, in source order. -/
def sizeTextPats : List (Option Char → List Char → Option String) :=
  [szPatInchQuote, szPatInchWord, szPatML, szPatLitre, szPatL,
   szPatDashPiece, szPatPc, szPatPieces]

/-- Shallow model: `parse_size_from_text` from dominos_scraper.py. -/
def parse_size_from_text (name : String) : String :=
  if name == "" then ""
  else ((sizeTextPats.findSome? fun p => searchStr p (stripStr name)).getD "")

/-- Shallow model: `hand\s*tossed` at one position (case-insensitive). -/
def handTossedAt (cs : List Char) : Bool :=
  match ciDrop "hand" cs with
  | some r => (ciDrop "tossed" (skipWs r)).isSome
  | none => false

/-- Shallow model: `new-?york` at one position (case-insensitive). -/
def newYorkAt (cs : List Char) : Bool :=
  match ciDrop "new" cs with
  | some r =>
    (match r with
     | '-' :: r2 => (ciDrop "york" r2).isSome
     | _ => false) ||
    (ciDrop "york" r).isSome
  | none => false

/-- Shallow model: `root\s*beer` at one position (case-insensitive). -/
def rootBeerAt (cs : List Char) : Bool :=
  match ciDrop "root" cs with
  | some r => (ciDrop "beer" (skipWs r)).isSome
  | none => false

/-- Shallow model: `PIZZAISH_RX.search` from dominos_scraper.py. -/
def pizzaish (t : String) : Bool :=
  let lo := lowerStr t
  pyIn "pizza" lo || pyIn "crust" lo || scanBoolAux handTossedAt t.data ||
    pyIn "thin" lo || pyIn "brooklyn" lo || scanBoolAux newYorkAt t.data ||
    pyIn "fingers" lo

/-- Shallow model: `PIECEY_NAME_RX.search` from dominos_scraper.py. -/
def pieceyName (t : String) : Bool :=
  let lo := lowerStr t
  ["stix", "sticks", "bread", "bites", "brownie", "wings", "fingers"].any
    fun k => pyIn k lo

/-- Shallow model: `BEV_NAME_RX.search` from dominos_scraper.py. -/
def bevName (t : String) : Bool :=
  let lo := lowerStr t
  ["coke", "sprite", "ginger", "fanta", "water", "fuz", "zero", "diet"].any
      (fun k => pyIn k lo) ||
    scanBoolAux rootBeerAt t.data

/-- Shallow model: `(\d{1,3})PC` searched anywhere (case-insensitive, no boundaries). -/
def pcCodePat (_prev : Option Char) (cs : List Char) : Option String :=
  match digitGroup 1 3 cs with
  | some (g, r1) =>
    match ciDrop "pc" r1 with
    | some _ => some (g ++ " pc")
    | none => none
  | none => none

/-- Shallow model: `parse_size_from_code` from dominos_scraper.py. -/
def parse_size_from_code (code v_name p_name : String) : String :=
  if code == "" then ""
  else
    -- ^(\d{1,2})(?=[A-Z]) with the 6..20 range and context conditions
    let att1 : Option String :=
      match digitGroup 1 2 code.data with
      | some (g, r) =>
        match r with
        | c :: _ =>
          if 'A' ≤ c && c ≤ 'Z' then
            let n := digitsToNat g.data
            if 6 ≤ n && n ≤ 20 &&
                (pizzaish v_name || pizzaish p_name || pyIn "GARFIN" code) then
              some (toString n ++ "\"")
            else none
          else none
        | [] => none
      | none => none
    match att1 with
    | some r => r
    | none =>
      match searchStr pcCodePat code with
      | some r => r
      | none =>
        let att3 : Option String :=
          if pieceyName v_name || pieceyName p_name then
            -- ^(\d{1,3}) : greedy, up to three leading digits
            let ds := code.data.takeWhile Char.isDigit
            if ds.length != 0 then some (String.mk (ds.take 3) ++ " pc")
            else
              -- (\d{1,3})$ : the last (up to three) trailing digits
              let rs := code.data.reverse.takeWhile Char.isDigit
              if rs.length != 0 then some (String.mk (rs.take 3).reverse ++ " pc")
              else none
          else none
        match att3 with
        | some r => r
        | none =>
          let att4 : Option String :=
            if bevName v_name || bevName p_name then
              -- ^(\d{3,4}) : greedy, needs at least three leading digits
              let ds := code.data.takeWhile Char.isDigit
              if 3 ≤ ds.length then some (String.mk (ds.take 4) ++ " mL")
              else
                -- ^(\d+(?:\.\d+)?)L (case-insensitive)
                match decimalGroup code.data with
                | some (g, r) =>
                  match ciDrop "l" r with
                  | some _ => some (g ++ " L")
                  | none => none
                | none => none
            else none
          match att4 with
          | some r => r
          | none => ""

/-- Shallow model: `\bcup\b` / `\bbag\b` word search (case-insensitive). -/
def wordSearchCI (w : String) (s : String) : Bool :=
  let rec go : Option Char → List Char → Bool
    | _, [] => false
    | prev, c :: cs =>
      (bdryBefore prev &&
        (match ciDrop w (c :: cs) with
         | some r => bdryAfter r
         | none => false)) || go (some c) cs
  go none s.data

/-- Shallow model: `fallback_size_from_keywords` from dominos_scraper.py. -/
def fallback_size_from_keywords (name : String) : String :=
  if name == "" then ""
  else if wordSearchCI "cup" name then "Cup"
  else if wordSearchCI "bag" name then "Bag"
  else ""

/-- Shallow model: `derive_size` from dominos_scraper.py: variant/product `Size` fields
first, then name text, then the variant code, then keyword fallbacks; the
result is the empty string when nothing matches. -/
def derive_size (v prod : JVal) (v_name p_name vcode : String) : String :=
  let size0 := tidyJ (jOr (jget v "Size") (jOr (jget v "SizeName") (.str "")))
  let size1 :=
    if size0 == "" then tidyJ (jOr (jget prod "Size") (jOr (jget prod "SizeName") (.str "")))
    else size0
  if size1 != "" then size1
  else
    let sizeT :=
      let a := parse_size_from_text v_name
      if a != "" then a else parse_size_from_text p_name
    if sizeT != "" then sizeT
    else
      let sizeC := parse_size_from_code vcode v_name p_name
      if sizeC != "" then sizeC
      else
        let a := fallback_size_from_keywords v_name
        if a != "" then a else fallback_size_from_keywords p_name

/-! Section: Dominos `as_float` / `price_of` (dominos_scraper.py:80-122) -/

/-- Shallow model: `as_float` from dominos_scraper.py: `float(str(x).replace(",", ""))`,
`None` on failure.  Stringifying a number and parsing it back is the
identity; `None`, lists and dicts never parse. -/
def as_float (x : JVal) : Option ℚ :=
  match x with
  | .num q => some q
  | .str s => parseNumStr (removeChar ',' s)
  | _ => none

/-- The nested-price keys of `price_of`, in source order. -/
def NESTED_PRICE_KEYS : List String := ["Prices", "Pricing", "PriceInfo", "Amount", "Amounts"]

/-- The cents-denominated keys of `price_of`, in source order. -/
def CENTS_PRICE_KEYS : List String := ["PriceCents", "AmountCents", "Cents"]

/-- One candidate of the nested-key loop: a dict value yields the first of
its values that parses, anything else is parsed directly.  An absent key
and a key whose content does not parse both fall through, as in the
source. -/
def nestedCand (d : List (String × JVal)) (k : String) : Option ℚ :=
  match lookupF d k with
  | none => none
  | some (.obj fs) => fs.findSome? fun kv => as_float kv.2
  | some v => as_float v

/-- One candidate of the cents-key loop: `round(f / 100.0, 2)`. -/
def centsCand (d : List (String × JVal)) (k : String) : Option ℚ :=
  match lookupF d k with
  | none => none
  | some v => (as_float v).map fun f => round2 (f / 100)

/-- Shallow model: `price_of` from dominos_scraper.py: direct `Price`, then the nested
keys, then the cents keys; `""` (nothing reliable) is `none`. -/
def price_of (j : JVal) : Option ℚ :=
  match j with
  | .obj d =>
    match (lookupF d "Price").bind as_float with
    | some f => some f
    | none =>
      match NESTED_PRICE_KEYS.findSome? (nestedCand d) with
      | some f => some f
      | none => CENTS_PRICE_KEYS.findSome? (centsCand d)
  | _ => none

/-- The full prioritized candidate list of `price_of`, written the way the
spec describes it: direct numeric price field, then nested amount
objects, then cents-denominated integers divided by 100. -/
def priceCandidates (d : List (String × JVal)) : List (Option ℚ) :=
  ((lookupF d "Price").bind as_float) ::
    (NESTED_PRICE_KEYS.map (nestedCand d) ++ CENTS_PRICE_KEYS.map (centsCand d))

/-- The spec formulation of `extractPrice`: the first candidate of the
prioritized list that parses as a number, `Unknown` (`none`) otherwise. -/
def priceOfSpec (j : JVal) : Option ℚ :=
  match j with
  | .obj d => (priceCandidates d).findSome? id
  | _ => none

/-! Section: Dominos extractor walk (dominos_scraper.py:360-484) -/

/-- The accumulated extractor state: `products_by_code`,
`variants_by_code` and `product_to_variants`, all insertion-ordered as
Python dicts are. -/
structure ExtractSt where
  products : List (String × JVal)
  variants : List (String × JVal)
  p2v : List (String × List String)

def lookupL : List (String × List String) → String → Option (List String)
  | [], _ => none
  | (k, v) :: rest, key => if k == key then some v else lookupL rest key

/-- Shallow model: `product_to_variants.get(p, [])`. -/
def getP2V (m : List (String × List String)) (k : String) : List String :=
  (lookupL m k).getD []

/-- Shallow model: `product_to_variants.setdefault(p, []).append(vc)`. -/
def appendP2V : List (String × List String) → String → String → List (String × List String)
  | [], k, vc => [(k, [vc])]
  | (k0, l) :: rest, k, vc =>
    if k0 == k then (k0, l ++ [vc]) :: rest else (k0, l) :: appendP2V rest k vc

/-- Shallow model: `f"{idx:03d}"`: decimal digits left-padded with zeros to width three. -/
def pad3 (n : Nat) : String :=
  let s := toString n
  if s.length < 3 then String.mk (List.replicate (3 - s.length) '0') ++ s else s

def PRODUCT_HINT_KEYS : List String :=
  ["AvailableToppings", "DefaultToppings", "ProductType", "DefaultSides", "Variants"]

def VARIANT_HINT_KEYS : List String :=
  ["Price", "PriceInfo", "Size", "Crust", "VariantCode", "VariantName", "CrustName",
   "SizeName", "BreadType", "Portion", "PortionName", "Flavor", "FlavorCode"]

/-- Shallow model: `"ProductCode" in obj`. -/
def has_product_code (j : JVal) : Bool := (lookupF (jfields j) "ProductCode").isSome

/-- Shallow model: `any(k in obj for k in PRODUCT_HINT_KEYS)`. -/
def has_item_hint (j : JVal) : Bool :=
  PRODUCT_HINT_KEYS.any fun k => (lookupF (jfields j) k).isSome

/-- Shallow model: `any(k in obj for k in VARIANT_HINT_KEYS)`. -/
def has_variant_hint (j : JVal) : Bool :=
  VARIANT_HINT_KEYS.any fun k => (lookupF (jfields j) k).isSome

/-- Shallow model: `looks_like_product` inside `collect_products_and_variants.walk`. -/
def looks_like_product (j : JVal) : Bool := !has_product_code j && has_item_hint j

/-- Shallow model: `looks_like_variant` inside `collect_products_and_variants.walk`. -/
def looks_like_variant (j : JVal) : Bool := has_product_code j && has_variant_hint j

/-- Shallow model: `add_variant` from dominos_scraper.py: a falsy parent code drops the
variant; a falsy own code synthesizes `<pcode>__v<NNN>` from the current
length of the variant list of the parent (so every earlier insertion, explicit
or synthesized, consumes an ordinal slot). -/
def add_variant (st : ExtractSt) (vcode : JVal) (v : JVal) (pcode : JVal) : ExtractSt :=
  if !jTruthy pcode then st
  else
    let pc := pyStrJ pcode
    let (vc, v2) :=
      if jTruthy vcode then (pyStrJ vcode, v)
      else
        let idx := (getP2V st.p2v pc).length
        (pc ++ "__v" ++ pad3 (idx + 1),
         JVal.obj (setF (jfields v) "__Synthesized" (.bool true)))
    { products := st.products,
      variants := setF st.variants vc v2,
      p2v := appendP2V st.p2v pc vc }

/-- Field-by-field merge of a repeated product registration: only fields
whose stored value is absent, `None` or `""` are filled in. -/
def mergeMissingF (old new : List (String × JVal)) : List (String × JVal) :=
  new.foldl
    (fun acc kv =>
      match lookupF acc kv.1 with
      | none => setF acc kv.1 kv.2
      | some .null => setF acc kv.1 kv.2
      | some (.str s) => if s == "" then setF acc kv.1 kv.2 else acc
      | some _ => acc)
    old

/-- Product registration in `walk`: first occurrence is stored whole,
repeats fill in missing fields. -/
def registerProduct (st : ExtractSt) (j : JVal) : ExtractSt :=
  let pcodeJ := jOr (jget j "Code") (jOr (jget j "Id") (jget j "ID"))
  if jTruthy pcodeJ then
    let pc := pyStrJ pcodeJ
    match lookupF st.products pc with
    | none => { st with products := st.products ++ [(pc, j)] }
    | some old => { st with products := setF st.products pc (.obj (mergeMissingF (jfields old) (jfields j))) }
  else st

/-- The inline `obj["Variants"]` list handler of `walk`. -/
def addInlineList (pcodeInline : JVal) (st : ExtractSt) : List JVal → ExtractSt
  | [] => st
  | v :: rest =>
    match v with
    | .obj _ =>
      addInlineList pcodeInline
        (add_variant st (jOr (jget v "Code") (jget v "VariantCode")) v
          (jOr (jget v "ProductCode") pcodeInline))
        rest
    | _ => addInlineList pcodeInline st rest

/-- The inline `obj["Variants"]` dict handler of `walk` (the key is the
variant code). -/
def addInlineDict (pcodeInline : JVal) (st : ExtractSt) : List (String × JVal) → ExtractSt
  | [] => st
  | (vc, v) :: rest =>
    match v with
    | .obj _ =>
      addInlineDict pcodeInline
        (add_variant st (.str vc) v (jOr (jget v "ProductCode") pcodeInline))
        rest
    | _ => addInlineDict pcodeInline st rest

mutual

/-- Shallow model: `collect_products_and_variants.walk` from dominos_scraper.py: classify
the node, handle an inline `Variants` container, then recurse into every
value (dicts) or element (lists). -/
def walkJ (st : ExtractSt) (j : JVal) : ExtractSt :=
  match j with
  | .obj fs =>
    let st1 := if looks_like_product (.obj fs) then registerProduct st (.obj fs) else st
    let st2 :=
      if looks_like_variant (.obj fs) then
        add_variant st1 (jOr (jget (.obj fs) "Code") (jget (.obj fs) "VariantCode"))
          (.obj fs) (jget (.obj fs) "ProductCode")
      else st1
    let st3 :=
      match lookupF fs "Variants" with
      | some (.arr vs) =>
        let pcodeInline :=
          jOr (jget (.obj fs) "Code")
            (jOr (jget (.obj fs) "Id") (jOr (jget (.obj fs) "ID") (jget (.obj fs) "ProductCode")))
        addInlineList pcodeInline st2 vs
      | some (.obj vfs) =>
        let pcodeInline :=
          jOr (jget (.obj fs) "Code")
            (jOr (jget (.obj fs) "Id") (jOr (jget (.obj fs) "ID") (jget (.obj fs) "ProductCode")))
        addInlineDict pcodeInline st2 vfs
      | _ => st2
    walkFields st3 fs
  | .arr xs => walkElems st xs
  | _ => st

def walkFields (st : ExtractSt) : List (String × JVal) → ExtractSt
  | [] => st
  | (_, v) :: rest => walkFields (walkJ st v) rest

def walkElems (st : ExtractSt) : List JVal → ExtractSt
  | [] => st
  | x :: rest => walkElems (walkJ st x) rest

end

/-- Keep the first occurrence of each element (`seen`/`uniq` loop of the
per-product de-duplication; also `SELECT DISTINCT`). -/
def dedupAux {α : Type} [BEq α] (seen : List α) : List α → List α
  | [] => []
  | x :: xs => if seen.contains x then dedupAux seen xs else x :: dedupAux (x :: seen) xs

def dedupFirst {α : Type} [BEq α] (l : List α) : List α := dedupAux [] l

/-- The initial `menu["Products"]` load of `collect_products_and_variants`.
The source calls `menu.get("Products")` unconditionally: on a non-dict
root that raises `AttributeError` (modelled as `none`); on a dict root a
missing or non-dict `Products` value contributes no products. -/
def initProducts (menu : JVal) : Option (List (String × JVal)) :=
  match menu with
  | .obj mfs =>
    some (match lookupF mfs "Products" with
          | some (.obj pfs) =>
            pfs.foldl
              (fun acc kv => match kv.2 with | .obj _ => setF acc kv.1 kv.2 | _ => acc) []
          | _ => [])
  | _ => none

/-- The walk and per-product de-duplication of
`collect_products_and_variants`, from an initial product table. -/
def collect_core (menu : JVal) (ps : List (String × JVal)) : ExtractSt :=
  let st := walkJ ⟨ps, [], []⟩ menu
  { st with p2v := st.p2v.map fun kv => (kv.1, dedupFirst kv.2) }

/-- Shallow model: `collect_products_and_variants` from dominos_scraper.py.  A non-dict
root raises `AttributeError` at `menu.get("Products")` (dominos_scraper.py:367),
caught further up by `scrape_store`; this is modelled as `.error`. -/
def collect_products_and_variants (menu : JVal) : Except String ExtractSt :=
  match initProducts menu with
  | none => .error "AttributeError"
  | some ps => .ok (collect_core menu ps)

/-! Section: Dominos category index (dominos_scraper.py:284-354, 535-549) -/

/-- The accumulated category maps: code → category names and
code → category codes (Python sets, modelled as insertion-ordered
duplicate-free lists; downstream emission sorts them). -/
structure CatIdx where
  names : List (String × List String)
  codes : List (String × List String)
deriving DecidableEq

/-- Shallow model: `m.setdefault(k, set()).add(v)`. -/
def addToSetL : List (String × List String) → String → String → List (String × List String)
  | [], k, v => [(k, [v])]
  | (k0, l) :: rest, k, v =>
    if k0 == k then (k0, if l.contains v then l else l ++ [v]) :: rest
    else (k0, l) :: addToSetL rest k v

/-- Shallow model: `add_map` inside `collect_category_index`. -/
def add_map (idx : CatIdx) (code cname ccode : String) : CatIdx :=
  if code == "" then idx
  else ⟨addToSetL idx.names code (tidy cname), addToSetL idx.codes code (tidy ccode)⟩

/-- Shallow model: `_codes_from_mixed` from dominos_scraper.py: literal code lists,
reference-object lists, mapping keys, or a single string. -/
def codes_from_mixed (value : JVal) : List String :=
  match value with
  | .arr xs =>
    xs.foldl
      (fun acc x =>
        match x with
        | .str s => acc ++ [s]
        | .obj _ =>
          let code := jOr (jget x "Code") (jOr (jget x "ProductCode") (jOr (jget x "Id") (jget x "ID")))
          if jTruthy code then acc ++ [pyStrJ code] else acc
        | _ => acc)
      []
  | .obj fs => fs.map fun kv => kv.1
  | .str s => [s]
  | _ => []

def CAT_PRODUCT_KEYS : List String :=
  ["Products", "Items", "FeaturedProducts", "PopularProducts", "RecommendedProducts"]

/-- The `kids` of one child-container key: a list value recursed into,
anything else ignored. -/
def kidsOf (fs : List (String × JVal)) (k : String) : List JVal :=
  match lookupF fs k with
  | some (.arr ks) => ks
  | _ => []

mutual

/-- Shallow model: `walk_category` inside `collect_category_index`: record every code the
category references against its name and code, then recurse into the
`Categories` / `Children` / `Subcategories` containers. -/
def walk_category (idx : CatIdx) (cat : JVal) : CatIdx :=
  match cat with
  | .obj fs =>
    let cname := tidyJ ((lookupF fs "Name").getD (.str ""))
    let ccode := tidyJ (jOr ((lookupF fs "Code").getD (.str "")) (jOr ((lookupF fs "Id").getD (.str "")) (.str "")))
    let st1 :=
      CAT_PRODUCT_KEYS.foldl
        (fun a k => (codes_from_mixed (jget (.obj fs) k)).foldl (fun b c => add_map b c cname ccode) a)
        idx
    walkCatKids (walkCatKids (walkCatKids st1 (kidsOf fs "Categories")) (kidsOf fs "Children"))
      (kidsOf fs "Subcategories")
  | _ => idx
termination_by sizeOf cat
decreasing_by
  · simp only [kidsOf]
    split
    · next ks heq =>
      have hlk : ∀ (l : List (String × JVal)) (key : String) (v : JVal),
          lookupF l key = some v → sizeOf v < sizeOf l := by
        intro l
        induction l with
        | nil => intro key v h; simp [lookupF] at h
        | cons hd tl ih =>
          intro key v h
          unfold lookupF at h
          split at h
          · cases h; cases hd; simp; omega
          · have := ih _ _ h; simp; omega
      have := hlk fs "Categories" _ heq
      simp at this ⊢
      omega
    · have hpos : 0 < sizeOf fs := by cases fs <;> simp
      simp
      omega
  · simp only [kidsOf]
    split
    · next ks heq =>
      have hlk : ∀ (l : List (String × JVal)) (key : String) (v : JVal),
          lookupF l key = some v → sizeOf v < sizeOf l := by
        intro l
        induction l with
        | nil => intro key v h; simp [lookupF] at h
        | cons hd tl ih =>
          intro key v h
          unfold lookupF at h
          split at h
          · cases h; cases hd; simp; omega
          · have := ih _ _ h; simp; omega
      have := hlk fs "Children" _ heq
      simp at this ⊢
      omega
    · have hpos : 0 < sizeOf fs := by cases fs <;> simp
      simp
      omega
  · simp only [kidsOf]
    split
    · next ks heq =>
      have hlk : ∀ (l : List (String × JVal)) (key : String) (v : JVal),
          lookupF l key = some v → sizeOf v < sizeOf l := by
        intro l
        induction l with
        | nil => intro key v h; simp [lookupF] at h
        | cons hd tl ih =>
          intro key v h
          unfold lookupF at h
          split at h
          · cases h; cases hd; simp; omega
          · have := ih _ _ h; simp; omega
      have := hlk fs "Subcategories" _ heq
      simp at this ⊢
      omega
    · have hpos : 0 < sizeOf fs := by cases fs <;> simp
      simp
      omega

def walkCatKids (idx : CatIdx) (ks : List JVal) : CatIdx :=
  match ks with
  | [] => idx
  | k :: rest => walkCatKids (walk_category idx k) rest
termination_by sizeOf ks
decreasing_by
  all_goals simp <;> omega

end

/-- Shallow model: `collect_category_index` from dominos_scraper.py: walk the `Food` and
`PreconfiguredProducts` sections of `Categorization`. -/
def collect_category_index (menu : JVal) : CatIdx :=
  let cat := jget menu "Categorization"
  let step := fun (idx : CatIdx) (section_ : String) =>
    match jget cat section_ with
    | .obj nfs =>
      match lookupF nfs "Categories" with
      | some (.arr cs) => walkCatKids idx cs
      | _ => idx
    | _ => idx
  step (step ⟨[], []⟩ "Food") "PreconfiguredProducts"

/-- Python `set(...) | set(...)` on the insertion-ordered lists: append
the missing elements. -/
def unionSet (a b : List String) : List String :=
  b.foldl (fun acc x => if acc.contains x then acc else acc ++ [x]) a

/-- Lexicographic strict order on character lists by code point (what
Python uses for `<` on `str` values). -/
def lexLtB : List Char → List Char → Bool
  | [], [] => false
  | [], _ :: _ => true
  | _ :: _, [] => false
  | a :: as, b :: bs =>
    if a.toNat < b.toNat then true
    else if b.toNat < a.toNat then false
    else lexLtB as bs

/-- Shallow model: `a ≤ b` on strings, as a computable Bool. -/
def pyStrLe (a b : String) : Bool := !lexLtB b.data a.data

/-- Insert into an ascending list (one step of insertion sort). -/
def insSorted (x : String) : List String → List String
  | [] => [x]
  | y :: ys => if pyStrLe x y then x :: y :: ys else y :: insSorted x ys

/-- Shallow model: `sorted(...)` on strings (ascending code-point order). -/
def sortStr (l : List String) : List String := l.foldr insSorted []

/-- Shallow model: `collect_category_strings` from dominos_scraper.py: union the category
names/codes of the product and its variants, drop empties, sort, and join
with `" | "`. -/
def collect_category_strings (pcode : String) (v_codes : List String) (idx : CatIdx) :
    String × String :=
  let cat_names := v_codes.foldl (fun acc vc => unionSet acc (getP2V idx.names vc)) (getP2V idx.names pcode)
  let cat_codes := v_codes.foldl (fun acc vc => unionSet acc (getP2V idx.codes vc)) (getP2V idx.codes pcode)
  (String.intercalate " | " (sortStr (cat_names.filter fun c => c != "")),
   String.intercalate " | " (sortStr (cat_codes.filter fun c => c != "")))

/-! Section: Pizza Pizza `_canonical_crust` (pizza_pizza_scraper.py:475-495) -/

/-- Body of `_canonical_crust` on the stripped lowercase form `s`. -/
def canonCrustCore (label : String) (s : String) : String :=
  if s == "" then "Regular Dough"
  else if pyIn "stuffed" s then "Stuffed Crust"
  else if pyIn "gourmet thin" s || pyIn "gourmet thins" s || (pyIn "thin" s && pyIn "crust" s) then "Thin"
  else if pyIn "brooklyn" s then "Brooklyn"
  else if pyIn "new-york" s || pyIn "new york" s then "New York Style"
  else if pyIn "cauliflower" s then "Cauliflower"
  else if pyIn "gluten free" s || pyIn "gluten-free" s then "Gluten Free"
  else if pyIn "regular" s || pyIn "original" s || pyIn "classic" s then "Regular Dough"
  else if pyIn "hand tossed" s || pyIn "hand-tossed" s then "Hand Tossed"
  else pyTitle (stripStr (if label == "" then "Regular Dough" else label))

/-- Shallow model: `_canonical_crust` from pizza_pizza_scraper.py. -/
def canonical_crust (label : String) : String :=
  canonCrustCore label (lowerStr (stripStr label))

/-- The controlled crust vocabulary `_canonical_crust` can produce besides
a title-cased passthrough. -/
def PP_CRUST_VOCAB : List String :=
  ["Regular Dough", "Stuffed Crust", "Thin", "Brooklyn", "New York Style",
   "Cauliflower", "Gluten Free", "Hand Tossed"]

/-! Section: Pizza Hut `blast_all` wave loop (pizza_hut_scraper.py:601-640) -/

/-- Outcome of one `scrape_store` future as seen by the `as_completed`
loop of `blast_all`: a result carrying rows, a `Throttled` exception, or
any other exception. -/
inductive FetchOutcome where
  | ok (rows : List String) : FetchOutcome
  | throttled : FetchOutcome
  | failed : FetchOutcome
deriving DecidableEq

/-- State of `blast_all`: the `remaining` hut-id set, the accumulated
`pizzas_rows`, and the `STOP_FLAG`. -/
structure WaveSt where
  remaining : List String
  rows : List String
  stop : Bool
deriving DecidableEq

/-- Model of one wave of the `as_completed` loop.  Futures are handed over in completion
order (the list argument).  On a normal result the rows are collected; on
`Throttled` the remaining futures are cancelled, the STOP_FLAG is set and
the loop breaks; on any other exception a warning is printed.  In every
one of these cases the `finally:` block discards the hut id of the future from
`remaining` — including the very future that raised `Throttled`. -/
def processCompleted (st : WaveSt) : List (String × FetchOutcome) → WaveSt
  | [] => st
  | (sid, out) :: rest =>
    match out with
    | .ok rs =>
      processCompleted { st with rows := st.rows ++ rs, remaining := st.remaining.erase sid } rest
    | .failed => processCompleted { st with remaining := st.remaining.erase sid } rest
    | .throttled => { st with remaining := st.remaining.erase sid, stop := true }

/-- The wave loop of `blast_all`: while `remaining` is non-empty, clear
the STOP_FLAG and run the next wave.  The completion schedule of each wave
is an oracle input, one entry per wave the run could need. -/
def blast_all_model (st : WaveSt) : List (List (String × FetchOutcome)) → WaveSt
  | [] => st
  | w :: rest =>
    if st.remaining.isEmpty then st
    else blast_all_model (processCompleted { st with stop := false } w) rest

/-- Shallow model: `main` of pizza_hut_scraper.py: an empty hut list aborts
(`sys.exit(1)`, modelled as `Except.error`); otherwise the blast loop
runs and its rows are written. -/
def ph_main (huts : List String) (schedule : List (List (String × FetchOutcome))) :
    Except Unit (List String) :=
  if huts.isEmpty then .error ()
  else .ok (blast_all_model ⟨huts, [], false⟩ schedule).rows

/-! Section: The STOP_FLAG gate of `fetch_json` (pizza_hut_scraper.py:127-157)

`fetch_json` consists of two separately scheduled steps: the gate check
`if STOP_FLAG.is_set(): raise Throttled` (line 134) and the HTTP request
`get_sess().get(...)` (line 138).  Other workers can set the flag between
the two.  The transition system below interleaves these steps for any
number of concurrent `fetch_json` calls. -/

/-- Phases of one `fetch_json` call: before its gate check, past the gate
but with the request not yet issued, aborted by `raise Throttled`, or done. -/
inductive CallPhase where
  | idle | passed | throttledP | fetched
deriving DecidableEq

/-- Scheduler events: call `w` executes its gate check, call `w` issues
its HTTP request, some worker observes a throttle signal and sets the
STOP_FLAG (lines 140/147), or the next wave starts and clears it
(blast_all line 609). -/
inductive GateEv where
  | gate (w : Nat)
  | issue (w : Nat)
  | setStop
  | clearStop

/-- Shared state: the STOP_FLAG plus the phase of each call. -/
structure GateSt where
  stopped : Bool
  phases : Nat → CallPhase

def updPhase (st : GateSt) (w : Nat) (p : CallPhase) : GateSt :=
  { st with phases := fun x => if x == w then p else st.phases x }

/-- One scheduler step.  The second component records every HTTP request
issued by the step as `(call, STOP_FLAG at issue time)`. -/
def stepEv (st : GateSt) (e : GateEv) : GateSt × List (Nat × Bool) :=
  match e with
  | .setStop => ({ st with stopped := true }, [])
  | .clearStop => ({ st with stopped := false }, [])
  | .gate w =>
    match st.phases w with
    | .idle =>
      if st.stopped then (updPhase st w .throttledP, [])
      else (updPhase st w .passed, [])
    | _ => (st, [])
  | .issue w =>
    match st.phases w with
    | .passed => (updPhase st w .fetched, [(w, st.stopped)])
    | _ => (st, [])

/-- Run a whole interleaving, collecting the issued requests in order. -/
def runEvs (st : GateSt) : List GateEv → GateSt × List (Nat × Bool)
  | [] => (st, [])
  | e :: es =>
    let p := stepEv st e
    let q := runEvs p.1 es
    (q.1, p.2 ++ q.2)

/-- The requests issued while the STOP_FLAG was set, i.e. during a
cooling window. -/
def stoppedFetches (recs : List (Nat × Bool)) : List (Nat × Bool) := recs.filter (fun r => r.2)

/-- The requests issued by one particular `fetch_json` call. -/
def fetchesBy (w : Nat) (recs : List (Nat × Bool)) : List (Nat × Bool) :=
  recs.filter (fun r => r.1 == w)

/-! Section: Pizza Pizza runner collection (pizza_pizza_scraper.py:933-966) -/

/-- The result-collection loop of the Pizza Pizza `main`: each store
future either yields rows (extended into `all_rows`) or raises, in which
case `except Exception: pass` skips it and records nothing. -/
def pp_collect (outcomes : List (Except Unit (List String))) : List String :=
  outcomes.foldl (fun acc o => match o with | .ok rs => acc ++ rs | .error _ => acc) []

/-- The rows a failed or empty future contributes. -/
def okRows : Except Unit (List String) → List String
  | .ok rs => rs
  | .error _ => []

/-! Section: The `product_key` filters (pizza_pizza_scraper.py:948-960, model.py:84-108) -/

/-- One Pizza Pizza output row, reduced to the field the final filter
reads; `payload` stands in for the remaining twelve columns. -/
structure PRow where
  product_key : String
  payload : String
deriving DecidableEq

/-- The FINAL FILTER of the Pizza Pizza `main`: keep a row iff its
`product_key` does not contain `"product"` case-insensitively. -/
def pp_keep (r : PRow) : Bool := !(pyIn "product" (lowerStr r.product_key))

/-- Shallow model: `filtered_rows` — the rows actually written to the CSV. -/
def pp_filter (rows : List PRow) : List PRow := rows.filter pp_keep

/-- One staged row of model.py: after `read_csv_auto(..., union_by_name)`
the `product_key` may be NULL, and `TRY_CAST` may fail for
`price`/`date_key`. -/
structure SRow where
  product_key : Option String
  price : Option ℚ
  date_key : Option String
  payload : String
deriving DecidableEq

/-- The `stg` view predicate of build_model: lower of the coalesced
product_key must not contain the substring product. -/
def stg_keep (r : SRow) : Bool := !(pyIn "product" (lowerStr (r.product_key.getD "")))

/-- The `stg` view of build_model: every staged raw row passing the filter.
All dimensions and the fact select from this view. -/
def stg_rows (rows : List SRow) : List SRow := rows.filter stg_keep

/-- Shallow model: `dim_product` of build_model, reduced to its `product_key` column
(`SELECT DISTINCT`). -/
def dim_product_keys (rows : List SRow) : List (Option String) :=
  dedupFirst ((stg_rows rows).map (fun r => r.product_key))

/-- Shallow model: `fact_menu_price` of build_model, reduced to its `product_key`
provenance (rows with non-NULL price and date). -/
def fact_product_keys (rows : List SRow) : List (Option String) :=
  ((stg_rows rows).filter (fun r => r.price.isSome && r.date_key.isSome)).map
    (fun r => r.product_key)

/-- How a written scraper row enters the staging layer: its `product_key`
column is carried over verbatim (non-NULL). -/
def toSRow (price : Option ℚ) (date : Option String) (r : PRow) : SRow :=
  ⟨some r.product_key, price, date, r.payload⟩

/-! Section: Concrete documents, schedules and traces used by the claim theorems -/

/-- A Dominos price-bearing dict whose `Price` is negative. -/
def negPriceDict : JVal := .obj [("Price", .num (-5))]

/-- Scenario B document: item `P2`, an explicit-coded variant node `V1`
(price 12.99) encountered first, then a codeless variant node
(price 15.99), both referencing the item via `ProductCode`. -/
def scenarioBMenu : JVal :=
  .obj [("Products", .obj [("P2", .obj [("Code", .str "P2"), ("ProductType", .str "Pizza")])]),
        ("V", .arr [.obj [("Code", .str "V1"), ("ProductCode", .str "P2"), ("Price", .num (1299/100))],
                    .obj [("ProductCode", .str "P2"), ("Price", .num (1599/100))]])]

/-- A node carrying `ProductCode` together with an item-only hint key
(`AvailableToppings`) and a variant-only hint key (`Price`): it passes
both key-signature tests at once. -/
def bothHintsNode : JVal :=
  .obj [("ProductCode", .str "P9"), ("AvailableToppings", .arr []),
        ("Price", .num (999/100)), ("Code", .str "X")]

/-- A dict-rooted document (so `menu.get("Products")` succeeds) whose
only content is `bothHintsNode`, reached by the walk through the `Menu`
field. -/
def bothHintsDoc : JVal := .obj [("Menu", .arr [bothHintsNode])]

/-- Scenario C document: the category tree references `P3` under both
`Specialty` and `Classic`. -/
def scenarioCMenu : JVal :=
  .obj [("Categorization", .obj [("Food", .obj [("Categories", .arr
    [.obj [("Name", .str "Specialty"), ("Code", .str "S"), ("Products", .arr [.str "P3"])],
     .obj [("Name", .str "Classic"), ("Code", .str "C"), ("Products", .arr [.str "P3"])]])])])]

/-- Scenario D start state: one target `T1`, nothing harvested. -/
def c1InitSt : WaveSt := ⟨["T1"], [], false⟩

/-- Scenario D schedule: the fetch for `T1` raises `Throttled` in wave one; a
second wave — if it ran — would succeed for `T1`. -/
def c1Schedule : List (List (String × FetchOutcome)) :=
  [[("T1", .throttled)], [("T1", .ok ["T1-row"])]]

/-- Two concurrent `fetch_json` calls, all idle, flag clear. -/
def c2Init : GateSt := ⟨false, fun _ => .idle⟩

/-- The racing interleaving: call 0 passes its gate check, another worker
then observes HTTP 429 and sets the STOP_FLAG, and call 0 goes on to
issue its request — during the cooling window. -/
def c2Trace : List GateEv := [.gate 0, .setStop, .issue 0]

/-- A gate state with the STOP_FLAG already set and every call still
before its gate check. -/
def c2Cooling : GateSt := ⟨true, fun _ => .idle⟩

/-- A Pizza Pizza row as written (already `PP_`-prefixed, no
`"product"` inside). -/
def ppGoodRow : PRow := ⟨"PP_collection_12900_XL_REG", "x"⟩

/-- A Pizza Pizza row whose key contains `"Product"`. -/
def ppBadRow : PRow := ⟨"PP_Product_1_SM_REG", "y"⟩

/-! Section: supporting lemmas -/

/-- A value found by `lookupS` is one of the stored values. -/
theorem lookupS_mem : ∀ (l : List (String × String)) (key v : String),
    lookupS l key = some v → v ∈ l.map Prod.snd := by
  intro l
  induction l with
  | nil => intro key v h; cases h
  | cons kv rest ih =>
    intro key v h
    obtain ⟨k0, v0⟩ := kv
    unfold lookupS at h
    cases hk : k0 == key with
    | true =>
      rw [hk] at h
      simp at h
      simp [h]
    | false =>
      rw [hk] at h
      simp at h
      simp [ih key v h]

/-- Every output of the `normalize_crust` body is the default token, a
mapping value, or the title-cased processed input. -/
theorem normCrustCore_out (s0 : String) :
    normCrustCore s0 = "Regular Dough"
    ∨ normCrustCore s0 ∈ PH_CRUST_MAPPING.map Prod.snd
    ∨ normCrustCore s0 = pyTitle (stripStr (replaceChar '.' ' ' (stripAfterCrustsCI s0))) := by
  have hdef : normCrustCore s0 =
      (if lowerStr (stripStr (replaceChar '.' ' ' (stripAfterCrustsCI s0))) == ""
       then "Regular Dough"
       else (lookupS PH_CRUST_MAPPING
              (lowerStr (stripStr (replaceChar '.' ' ' (stripAfterCrustsCI s0))))).getD
              (pyTitle (stripStr (replaceChar '.' ' ' (stripAfterCrustsCI s0))))) := rfl
  rw [hdef]
  by_cases h : lowerStr (stripStr (replaceChar '.' ' ' (stripAfterCrustsCI s0))) == ""
  · left
    simp [h]
  · rw [if_neg h]
    cases hl : lookupS PH_CRUST_MAPPING
        (lowerStr (stripStr (replaceChar '.' ' ' (stripAfterCrustsCI s0)))) with
    | some v =>
      right; left
      simpa using lookupS_mem _ _ _ hl
    | none =>
      right; right
      rfl

/-- The shared tail of `price_from_variant` (steps two to four, over
opaque option values) equals the first-match of the corresponding
candidate suffix. -/
theorem pfv_tail_gen (o4 : Option ℚ) (o5 : Option JVal) (t : Bool)
    (o6 : Option ℚ) (o7 : Option JVal) :
    (match o4 with
     | some q => some (round2 q)
     | none =>
       match (match o5 with | some pv => cents_to_dollars pv | none => none) with
       | some r => some r
       | none =>
         if t then
           match o6 with
           | some q => some (round2 q)
           | none =>
             match o7 with
             | some (.num q) => if q.den == 1 then cents_to_dollars (.num q) else none
             | _ => none
         else none)
    = [(match o4 with | some q => some (round2 q) | none => none),
       (match o5 with | some pv => cents_to_dollars pv | none => none),
       (if t then match o6 with | some q => some (round2 q) | none => none else none),
       (if t then
          match o7 with
          | some (.num q) => if q.den == 1 then cents_to_dollars (.num q) else none
          | _ => none
        else none)].findSome? id := by
  cases o4 with
  | some q => simp [List.findSome?_cons]
  | none =>
    cases o5 with
    | none =>
      cases t with
      | false => simp [List.findSome?_cons]
      | true =>
        cases o6 with
        | some q => simp [List.findSome?_cons]
        | none =>
          cases o7 with
          | none => simp [List.findSome?_cons]
          | some pcv =>
            cases pcv with
            | num q =>
              cases hZ : cents_to_dollars (.num q) <;>
                by_cases hden : q.den = 1 <;> simp [List.findSome?_cons, hZ, hden]
            | null => simp [List.findSome?_cons]
            | bool b => simp [List.findSome?_cons]
            | str s => simp [List.findSome?_cons]
            | arr xs => simp [List.findSome?_cons]
            | obj fs => simp [List.findSome?_cons]
    | some pv =>
      cases hE : cents_to_dollars pv with
      | some r => simp [List.findSome?_cons, hE]
      | none =>
        cases t with
        | false => simp [List.findSome?_cons, hE]
        | true =>
          cases o6 with
          | some q => simp [List.findSome?_cons, hE]
          | none =>
            cases o7 with
            | none => simp [List.findSome?_cons, hE]
            | some pcv =>
              cases pcv with
              | num q =>
                cases hZ : cents_to_dollars (.num q) <;>
                  by_cases hden : q.den = 1 <;> simp [List.findSome?_cons, hE, hZ, hden]
              | null => simp [List.findSome?_cons, hE]
              | bool b => simp [List.findSome?_cons, hE]
              | str s => simp [List.findSome?_cons, hE]
              | arr xs => simp [List.findSome?_cons, hE]
              | obj fs => simp [List.findSome?_cons, hE]

theorem append_quote_ne (n : String) : n ++ "\"" ≠ "" := by
  intro he
  have hl : n.length + ("\"" : String).length = ("" : String).length := by
    rw [← String.length_append, he]
  have h1 : ("\"" : String).length = 1 := rfl
  have h2 : ("" : String).length = 0 := rfl
  rw [h1, h2] at hl
  omega

theorem sizeTokenOf_ne_empty (s : String) : sizeTokenOf s ≠ "" := by
  unfold sizeTokenOf
  cases h : numInchSearch s with
  | some n => exact append_quote_ne n
  | none => split_ifs <;> decide

set_option maxHeartbeats 2000000 in
theorem canonCrustCore_cases (label s : String) :
    canonCrustCore label s ∈ PP_CRUST_VOCAB
    ∨ (s ≠ "" ∧ canonCrustCore label s
        = pyTitle (stripStr (if label == "" then "Regular Dough" else label))) := by
  unfold canonCrustCore
  split_ifs with h1 h2 h3 h4 h5 h6 h7 h8 h9
  all_goals try exact Or.inr ⟨by simpa using h1, rfl⟩
  all_goals try exact Or.inl (by decide)

theorem findSome?_append {α β : Type} (f : α → Option β) (l1 l2 : List α) :
    (l1 ++ l2).findSome? f =
      (match l1.findSome? f with | some b => some b | none => l2.findSome? f) := by
  induction l1 with
  | nil => rfl
  | cons a as ih =>
    rw [List.cons_append, List.findSome?_cons, List.findSome?_cons]
    cases f a <;> simp [ih]

theorem findSome?_id_map {α β : Type} (g : α → Option β) (l : List α) :
    (l.map g).findSome? id = l.findSome? g := by
  induction l with
  | nil => rfl
  | cons a as ih =>
    rw [List.map_cons, List.findSome?_cons, List.findSome?_cons]
    cases g a <;> simp [ih]

theorem mem_dedupAux {α : Type} [BEq α] [LawfulBEq α] :
    ∀ (l seen : List α) (x : α), x ∈ dedupAux seen l → x ∈ l ∧ seen.contains x = false := by
  intro l
  induction l with
  | nil => intro seen x h; simp [dedupAux] at h
  | cons a as ih =>
    intro seen x h
    unfold dedupAux at h
    split at h
    · have := ih _ _ h
      exact ⟨List.Mem.tail _ this.1, this.2⟩
    · next hc =>
      cases h with
      | head => exact ⟨List.Mem.head _, by simpa using hc⟩
      | tail _ h2 =>
        have := ih _ _ h2
        refine ⟨List.Mem.tail _ this.1, ?_⟩
        have h3 := this.2
        rw [List.contains_cons] at h3
        simpa using (Bool.or_eq_false_iff.mp h3).2

theorem dedupAux_nodup {α : Type} [BEq α] [LawfulBEq α] :
    ∀ (l seen : List α), (dedupAux seen l).Nodup := by
  intro l
  induction l with
  | nil => intro seen; exact List.nodup_nil
  | cons a as ih =>
    intro seen
    unfold dedupAux
    split
    · exact ih _
    · refine List.Nodup.cons ?_ (ih _)
      intro hmem
      have := (mem_dedupAux as (a :: seen) a hmem).2
      rw [List.contains_cons] at this
      simp at this

theorem dedupFirst_nodup {α : Type} [BEq α] [LawfulBEq α] (l : List α) :
    (dedupFirst l).Nodup := dedupAux_nodup l []

theorem lookupL_map_dedup (m : List (String × List String)) (k : String) :
    lookupL (m.map fun kv => (kv.1, dedupFirst kv.2)) k = (lookupL m k).map dedupFirst := by
  induction m with
  | nil => rfl
  | cons kv rest ih =>
    cases kv with
    | mk k0 l0 =>
      show lookupL ((k0, dedupFirst l0) :: _) k = _
      unfold lookupL
      split <;> simp [ih]

theorem lexLtB_asymm : ∀ (a b : List Char), lexLtB a b = true → lexLtB b a = false := by
  intro a
  induction a with
  | nil =>
    intro b h
    cases b with
    | nil => nomatch h
    | cons c cs => rfl
  | cons x xs ih =>
    intro b h
    cases b with
    | nil => nomatch h
    | cons y ys =>
      show (if y.toNat < x.toNat then true
            else if x.toNat < y.toNat then false else lexLtB ys xs) = false
      by_cases h1 : x.toNat < y.toNat
      · rw [if_neg (by omega), if_pos h1]
      · by_cases h2 : y.toNat < x.toNat
        · exfalso
          have hfalse : lexLtB (x :: xs) (y :: ys) = false := by
            show (if x.toNat < y.toNat then true
                  else if y.toNat < x.toNat then false else lexLtB xs ys) = false
            rw [if_neg h1, if_pos h2]
          rw [hfalse] at h
          nomatch h
        · have h3 : lexLtB xs ys = true := by
            have h0 := h
            rw [show lexLtB (x :: xs) (y :: ys)
                = (if x.toNat < y.toNat then true
                   else if y.toNat < x.toNat then false else lexLtB xs ys) from rfl,
               if_neg h1, if_neg h2] at h0
            exact h0
          rw [if_neg h2, if_neg h1]
          exact ih ys h3

theorem lexLtB_trans_or : ∀ (a b c : List Char),
    lexLtB c a = true → lexLtB c b = true ∨ lexLtB b a = true := by
  intro a
  induction a with
  | nil =>
    intro b c h
    cases c with
    | nil => nomatch h
    | cons x xs => nomatch h
  | cons y ys ih =>
    intro b c h
    cases c with
    | nil =>
      cases b with
      | nil => exact Or.inr rfl
      | cons z zs => exact Or.inl rfl
    | cons x xs =>
      cases b with
      | nil => exact Or.inr rfl
      | cons z zs =>
        have hunf : lexLtB (x :: xs) (y :: ys)
            = (if x.toNat < y.toNat then true
               else if y.toNat < x.toNat then false else lexLtB xs ys) := rfl
        have hleft : lexLtB (x :: xs) (z :: zs)
            = (if x.toNat < z.toNat then true
               else if z.toNat < x.toNat then false else lexLtB xs zs) := rfl
        have hright : lexLtB (z :: zs) (y :: ys)
            = (if z.toNat < y.toNat then true
               else if y.toNat < z.toNat then false else lexLtB zs ys) := rfl
        by_cases hxy : x.toNat < y.toNat
        · by_cases hxz : x.toNat < z.toNat
          · left; rw [hleft, if_pos hxz]
          · right; rw [hright, if_pos (by omega)]
        · by_cases hyx : y.toNat < x.toNat
          · exfalso
            rw [hunf, if_neg hxy, if_pos hyx] at h
            nomatch h
          · have hxs : lexLtB xs ys = true := by
              rw [hunf, if_neg hxy, if_neg hyx] at h
              exact h
            by_cases hxz : x.toNat < z.toNat
            · left; rw [hleft, if_pos hxz]
            · by_cases hzx : z.toNat < x.toNat
              · right; rw [hright, if_pos (by omega)]
              · rcases ih zs xs hxs with hl | hr
                · left; rw [hleft, if_neg hxz, if_neg hzx]; exact hl
                · right; rw [hright, if_neg (by omega), if_neg (by omega)]; exact hr

theorem strLe_total (x y : String) : pyStrLe x y = true ∨ pyStrLe y x = true := by
  unfold pyStrLe
  cases h : lexLtB y.data x.data with
  | false => exact Or.inl rfl
  | true =>
    right
    rw [lexLtB_asymm _ _ h]
    rfl

theorem strLe_trans (x y z : String) (h1 : pyStrLe x y = true) (h2 : pyStrLe y z = true) :
    pyStrLe x z = true := by
  unfold pyStrLe at h1 h2 ⊢
  rw [Bool.not_eq_true'] at h1 h2 ⊢
  cases h3 : lexLtB z.data x.data with
  | false => rfl
  | true =>
    rcases lexLtB_trans_or x.data y.data z.data h3 with hcb | hba
    · rw [h2] at hcb; nomatch hcb
    · rw [h1] at hba; nomatch hba

theorem mem_insSorted (x z : String) : ∀ (l : List String), z ∈ insSorted x l ↔ z = x ∨ z ∈ l := by
  intro l
  induction l with
  | nil => simp [insSorted]
  | cons y ys ih =>
    unfold insSorted
    split
    · simp [List.mem_cons]
    · simp only [List.mem_cons, ih]
      tauto

theorem insSorted_sorted (x : String) :
    ∀ (l : List String), l.Pairwise (fun a b => pyStrLe a b = true) →
      (insSorted x l).Pairwise (fun a b => pyStrLe a b = true) := by
  intro l
  induction l with
  | nil => intro _; simp [insSorted]
  | cons y ys ih =>
    intro h
    rw [List.pairwise_cons] at h
    unfold insSorted
    split
    · next hle =>
      rw [List.pairwise_cons]
      constructor
      · intro z hz
        rcases List.mem_cons.mp hz with rfl | hz2
        · exact hle
        · exact strLe_trans x y z hle (h.1 z hz2)
      · rw [List.pairwise_cons]
        exact h
    · next hgt =>
      rw [List.pairwise_cons]
      constructor
      · intro z hz
        rcases (mem_insSorted x z ys).mp hz with rfl | hz2
        · rcases strLe_total z y with hc | hc
          · exact absurd hc hgt
          · exact hc
        · exact h.1 z hz2
      · exact ih h.2

theorem sortStr_sorted (l : List String) :
    (sortStr l).Pairwise (fun a b => pyStrLe a b = true) := by
  induction l with
  | nil => simp [sortStr]
  | cons x xs ih => exact insSorted_sorted x _ ih

theorem mem_sortStr (z : String) : ∀ (l : List String), z ∈ sortStr l ↔ z ∈ l := by
  intro l
  induction l with
  | nil => simp [sortStr]
  | cons x xs ih =>
    show z ∈ insSorted x (sortStr xs) ↔ _
    rw [mem_insSorted]
    simp [ih]

theorem fetchesBy_append (w : Nat) (a b : List (Nat × Bool)) :
    fetchesBy w (a ++ b) = fetchesBy w a ++ fetchesBy w b := by
  simp [fetchesBy, List.filter_append]

theorem stepEv_phases_throttled (st : GateSt) (e : GateEv) (w : Nat)
    (h : st.phases w = CallPhase.throttledP) :
    (stepEv st e).1.phases w = CallPhase.throttledP := by
  cases e with
  | setStop => exact h
  | clearStop => exact h
  | gate w2 =>
    unfold stepEv
    cases hph : st.phases w2 with
    | idle =>
      have hww : w ≠ w2 := by
        intro he
        rw [← he, h] at hph
        cases hph
      by_cases hs : st.stopped <;>
        simp [hph, hs, updPhase, hww, h]
    | passed => simp [hph]; exact h
    | throttledP => simp [hph]; exact h
    | fetched => simp [hph]; exact h
  | issue w2 =>
    unfold stepEv
    cases hph : st.phases w2 with
    | passed =>
      have hww : w ≠ w2 := by
        intro he
        rw [← he, h] at hph
        cases hph
      simp [hph, updPhase, hww, h]
    | idle => simp [hph]; exact h
    | throttledP => simp [hph]; exact h
    | fetched => simp [hph]; exact h

theorem stepEv_no_fetch_of_throttled (st : GateSt) (e : GateEv) (w : Nat)
    (h : st.phases w = CallPhase.throttledP) :
    fetchesBy w (stepEv st e).2 = [] := by
  cases e with
  | setStop => rfl
  | clearStop => rfl
  | gate w2 =>
    unfold stepEv
    cases hph : st.phases w2 <;> by_cases hs : st.stopped <;> simp [hph, hs, fetchesBy]
  | issue w2 =>
    unfold stepEv
    cases hph : st.phases w2 with
    | passed =>
      have hww : w2 ≠ w := by
        intro he
        rw [he, h] at hph
        cases hph
      simp [hph, fetchesBy, hww]
    | idle => simp [hph, fetchesBy]
    | throttledP => simp [hph, fetchesBy]
    | fetched => simp [hph, fetchesBy]

theorem throttled_never_fetches : ∀ (tr : List GateEv) (st : GateSt) (w : Nat),
    st.phases w = CallPhase.throttledP → fetchesBy w (runEvs st tr).2 = [] := by
  intro tr
  induction tr with
  | nil => intro st w _; rfl
  | cons e es ih =>
    intro st w h
    show fetchesBy w ((stepEv st e).2 ++ (runEvs (stepEv st e).1 es).2) = []
    rw [fetchesBy_append, stepEv_no_fetch_of_throttled st e w h,
        ih _ w (stepEv_phases_throttled st e w h)]
    rfl

theorem pp_collect_foldl_aux :
    ∀ (outs : List (Except Unit (List String))) (acc : List String),
      outs.foldl (fun acc o => match o with | .ok rs => acc ++ rs | .error _ => acc) acc
        = acc ++ (outs.map okRows).flatten := by
  intro outs
  induction outs with
  | nil => intro acc; simp
  | cons o os ih =>
    intro acc
    cases o with
    | ok rs => simp [ih, okRows]
    | error e => simp [ih, okRows]

/-! Section: claim theorems -/

/-- C1 (code bug): in `blast_all`, the `finally: remaining.discard(sid)`
block runs even on the `Throttled` branch, so the very target whose fetch
returned HTTP 429 is removed from `remaining` and is never retried.  With
the single target `T1` throttled in wave one, `remaining` is empty after
the wave and the loop exits with no rows — a second wave in which `T1`
would have succeeded never runs.  The spec (Scenario D and §4.5) requires
`T1` to stay in `remaining` and be retried after the cooldown. -/
theorem throttled_target_discarded_from_remaining :
    (processCompleted c1InitSt [("T1", FetchOutcome.throttled)]).remaining = []
    ∧ blast_all_model c1InitSt c1Schedule = ⟨[], [], true⟩ :=
  ⟨rfl, by decide⟩

/-- C2 (counterexample): an interleaving in which call 0 passes the
STOP_FLAG gate check of `fetch_json`, another worker then reports a
throttle signal and sets the flag, and call 0 goes on to issue its HTTP
request — one fetch is issued during the cooling window, refuting "zero
fetches occur during the cooling window for every interleaving". -/
theorem fetch_issued_during_cooling :
    stoppedFetches (runEvs c2Init c2Trace).2 = [(0, true)] := rfl

/-- C2 (amended): any `fetch_json` call whose STOP_FLAG gate check runs
while the pause flag is set raises `Throttled` and never issues a
request, then or later in the run; only a call that passed its gate check
before the flag was set can still issue its (already in-flight) request. -/
theorem gate_check_while_paused_never_fetches (st : GateSt) (tr : List GateEv) (w : Nat)
    (hstop : st.stopped = true) (hidle : st.phases w = CallPhase.idle) :
    fetchesBy w (runEvs st (GateEv.gate w :: tr)).2 = [] := by
  have hthr : (stepEv st (.gate w)).1.phases w = CallPhase.throttledP := by
    simp [stepEv, hidle, hstop, updPhase]
  have hemp : (stepEv st (.gate w)).2 = [] := by
    simp [stepEv, hidle, hstop]
  show fetchesBy w ((stepEv st (.gate w)).2 ++ (runEvs (stepEv st (.gate w)).1 tr).2) = []
  rw [fetchesBy_append, hemp, throttled_never_fetches tr _ w hthr]
  rfl

/-- Witness for the C2 amended theorem at a concrete cooling state and
schedule. -/
theorem gate_check_while_paused_never_fetches_witness :
    fetchesBy 0 (runEvs c2Cooling
      (GateEv.gate 0 :: [GateEv.issue 0, GateEv.clearStop, GateEv.gate 0, GateEv.issue 0])).2 = [] :=
  gate_check_while_paused_never_fetches c2Cooling
    [GateEv.issue 0, GateEv.clearStop, GateEv.gate 0, GateEv.issue 0] 0 rfl rfl

/-- C3 (counterexample): `price_of` applies no sign check — on a dict
whose `Price` field is `-5` it returns `-5`, a negative number, whereas
the claim requires either skipping candidates that do not parse as a
non-negative number or returning Unknown. -/
theorem price_of_returns_negative :
    price_of negPriceDict = some (-5) ∧ ((-5 : ℚ) < 0) :=
  ⟨rfl, by norm_num⟩

set_option maxHeartbeats 1600000 in
/-- C3 (amended): both price extractors return the first candidate of
their prioritized list that parses as a number — with no non-negativity
requirement — and Unknown (`none`/`""`) when no candidate parses.  For
`price_of` the list is the direct `Price` field, then the nested keys,
then the cents keys divided by 100; for `price_from_variant` it is the
variant `price` field (direct, nested amount fields, nested cents), then
`unitPrice`/`value`/`amount`, then `priceCents`, then the product-level
fallback.  Stated as equality with the spec-shaped first-match
functions. -/
theorem price_of_first_parsing_candidate :
    (∀ (j : JVal), price_of j = priceOfSpec j)
    ∧ ∀ (v prod : JVal), price_from_variant v prod = pfvSpec v prod := by
  constructor
  · intro j
    cases j with
    | obj d =>
      simp only [price_of, priceOfSpec, priceCandidates, List.findSome?_cons, id]
      rw [findSome?_append, findSome?_id_map, findSome?_id_map]
      cases h0 : (lookupF d "Price").bind as_float with
      | some f => simp
      | none =>
        cases h1 : NESTED_PRICE_KEYS.findSome? (nestedCand d) <;> simp [h1]
    | null => rfl
    | bool b => rfl
    | num q => rfl
    | str s => rfl
    | arr xs => rfl
  · intro v prod
    unfold price_from_variant pfvSpec pfvCandidates
    cases hp : jget v "price" with
    | num q => simp [List.findSome?_cons]
    | obj fs =>
      dsimp only
      cases hA : ["amount", "value", "price"].findSome? (fun k => (lookupF fs k).bind numOf) with
      | some q => simp [List.findSome?_cons]
      | none =>
        cases hC : lookupF fs "cents" with
        | some cv =>
          cases hD : cents_to_dollars cv with
          | some r => simp [List.findSome?_cons, hD]
          | none =>
            dsimp only
            rw [hD]
            exact pfv_tail_gen
              (["unitPrice", "value", "amount"].findSome? (fun k => numOf (jget v k)))
              (lookupF (jfields v) "priceCents") (jTruthy prod)
              (numOf (jget prod "price")) (lookupF (jfields prod) "priceCents")
        | none =>
          exact pfv_tail_gen
            (["unitPrice", "value", "amount"].findSome? (fun k => numOf (jget v k)))
            (lookupF (jfields v) "priceCents") (jTruthy prod)
            (numOf (jget prod "price")) (lookupF (jfields prod) "priceCents")
    | null =>
      exact pfv_tail_gen
        (["unitPrice", "value", "amount"].findSome? (fun k => numOf (jget v k)))
        (lookupF (jfields v) "priceCents") (jTruthy prod)
        (numOf (jget prod "price")) (lookupF (jfields prod) "priceCents")
    | bool b =>
      exact pfv_tail_gen
        (["unitPrice", "value", "amount"].findSome? (fun k => numOf (jget v k)))
        (lookupF (jfields v) "priceCents") (jTruthy prod)
        (numOf (jget prod "price")) (lookupF (jfields prod) "priceCents")
    | str s =>
      exact pfv_tail_gen
        (["unitPrice", "value", "amount"].findSome? (fun k => numOf (jget v k)))
        (lookupF (jfields v) "priceCents") (jTruthy prod)
        (numOf (jget prod "price")) (lookupF (jfields prod) "priceCents")
    | arr xs =>
      exact pfv_tail_gen
        (["unitPrice", "value", "amount"].findSome? (fun k => numOf (jget v k)))
        (lookupF (jfields v) "priceCents") (jTruthy prod)
        (numOf (jget prod "price")) (lookupF (jfields prod) "priceCents")

/-- C4 (counterexample): the Dominos size canonicalizer `derive_size`
returns the empty string on undecidable input (no size fields, empty
names and code), refuting "never returns the empty string" for the size
canonicalizer as implemented in dominos_scraper.py. -/
theorem derive_size_empty_on_undecidable :
    derive_size (.obj []) (.obj []) "" "" "" = "" := rfl

/-- C4 (amended): the Pizza Hut size canonicalizer `normalize_size` is
total and never returns the empty string — numeric inch patterns first,
then named tiers, with the documented default `"Medium"` otherwise (so
`normalize_size "" "" = "Medium"`); the Dominos `derive_size` has no
such default and may return `""`. -/
theorem normalize_size_never_empty :
    (∀ (size_val fallback : String), normalize_size size_val fallback ≠ "")
    ∧ normalize_size "" "" = "Medium" :=
  ⟨fun _ _ => sizeTokenOf_ne_empty _, rfl⟩

/-- C5 (counterexample): empty input maps to `"Regular Dough"`, not to the
token `"Regular"` the claim names — in both the Pizza Pizza
`_canonical_crust` and the Pizza Hut `normalize_crust`. -/
theorem empty_crust_maps_to_regular_dough :
    canonical_crust "" = "Regular Dough" ∧ normalize_crust "" "" = "Regular Dough"
    ∧ "Regular Dough" ≠ "Regular" :=
  ⟨rfl, rfl, by decide⟩

/-- C5 (amended): each crust canonicalizer maps every input either into
its own small controlled vocabulary or to a title-cased passthrough of
the processed input, and empty input maps to the documented default
`"Regular Dough"` in both: `_canonical_crust` produces a member of
`PP_CRUST_VOCAB` or the title-cased stripped label, and `normalize_crust`
produces `"Regular Dough"`, a `PH_CRUST_MAPPING` value, or the
title-cased processed source string. -/
theorem crust_canonicalizer_vocab_or_titlecase :
    (∀ label : String,
      canonical_crust label ∈ PP_CRUST_VOCAB
      ∨ canonical_crust label = pyTitle (stripStr label))
    ∧ canonical_crust "" = "Regular Dough" ∧ normalize_crust "" "" = "Regular Dough"
    ∧ ∀ (crust_val fallback : String),
        normalize_crust crust_val fallback = "Regular Dough"
        ∨ normalize_crust crust_val fallback ∈ PH_CRUST_MAPPING.map Prod.snd
        ∨ normalize_crust crust_val fallback
            = pyTitle (stripStr (replaceChar '.' ' ' (stripAfterCrustsCI
                (if crust_val == "" then crust_from_keyish fallback
                 else stripStr crust_val)))) := by
  refine ⟨?_, rfl, rfl, ?_⟩
  · intro label
    rcases canonCrustCore_cases label (lowerStr (stripStr label)) with h | ⟨hs, h⟩
    · exact Or.inl h
    · right
      have hlabel : label ≠ "" := by
        intro he
        apply hs
        rw [he]
        rfl
      have hif : (if label == "" then "Regular Dough" else label) = label := by
        simp [hlabel]
      rw [show canonical_crust label = canonCrustCore label (lowerStr (stripStr label)) from rfl,
          h, hif]
  · intro crust_val fallback
    by_cases hc : crust_val = ""
    · by_cases hf : fallback = ""
      · left
        simp [normalize_crust, hc, hf]
      · have h := normCrustCore_out (crust_from_keyish fallback)
        have hn : normalize_crust crust_val fallback
            = normCrustCore (crust_from_keyish fallback) := by
          simp [normalize_crust, hc, hf]
        have hif : (if crust_val == "" then crust_from_keyish fallback else stripStr crust_val)
            = crust_from_keyish fallback := by simp [hc]
        rw [hn, hif]
        exact h
    · have h := normCrustCore_out (stripStr crust_val)
      have hn : normalize_crust crust_val fallback = normCrustCore (stripStr crust_val) := by
        simp [normalize_crust, hc]
      have hif : (if crust_val == "" then crust_from_keyish fallback else stripStr crust_val)
          = stripStr crust_val := by simp [hc]
      rw [hn, hif]
      exact h

/-- C6: in scenario B the explicit-coded sibling `V1` (inserted first)
consumes ordinal slot 1, so the codeless variant of item `P2` is
synthesized as `P2__v002`; and for every document and initial product
table, after synthesis and per-product de-duplication the variant-code
list of each product is duplicate-free. -/
theorem variant_ordinal_insertion_order_and_unique :
    (collect_products_and_variants scenarioBMenu).toOption.map
        (fun st => getP2V st.p2v "P2") = some ["V1", "P2__v002"]
    ∧ ∀ (menu : JVal) (ps : List (String × JVal)) (pcode : String),
        (getP2V (collect_core menu ps).p2v pcode).Nodup := by
  constructor
  · decide
  · intro menu ps pcode
    show (getP2V ((walkJ ⟨ps, [], []⟩ menu).p2v.map
      fun kv => (kv.1, dedupFirst kv.2)) pcode).Nodup
    unfold getP2V
    rw [lookupL_map_dedup]
    cases h : lookupL (walkJ ⟨ps, [], []⟩ menu).p2v pcode with
    | none => simp
    | some l => simpa using dedupFirst_nodup l

/-- C7 (counterexample): a node carrying both an item-only hint key and a
variant-only hint key is not classified as a CatalogItem when it carries
`ProductCode` — `bothHintsNode` passes both key-signature tests yet is
registered as a variant of `P9` and never as a product, refuting the
item-priority tie-break. -/
theorem both_signature_keys_classified_as_variant :
    has_item_hint bothHintsNode = true ∧ has_variant_hint bothHintsNode = true
    ∧ (collect_products_and_variants bothHintsDoc).toOption.map
        (fun st => st.products) = some []
    ∧ (collect_products_and_variants bothHintsDoc).toOption.map
        (fun st => getP2V st.p2v "P9") = some ["X"] :=
  ⟨rfl, rfl, rfl, by decide⟩

/-- C7 (amended): for a node carrying both item-only and variant-only
hint keys, the classification is decided solely by the parent-reference
field `ProductCode`: it is treated as a variant exactly when `ProductCode`
is present and as an item exactly when it is absent.  In particular the
two full signature tests are mutually exclusive and no item-priority
tie-break exists or fires. -/
theorem classification_decided_by_parent_reference (j : JVal)
    (h1 : has_item_hint j = true) (h2 : has_variant_hint j = true) :
    looks_like_product j = !has_product_code j
    ∧ looks_like_variant j = has_product_code j := by
  unfold looks_like_product looks_like_variant
  rw [h1, h2]
  simp

/-- Witness for the C7 amended theorem at the concrete two-hint node. -/
theorem classification_decided_by_parent_reference_witness :
    looks_like_product bothHintsNode = !has_product_code bothHintsNode
    ∧ looks_like_variant bothHintsNode = has_product_code bothHintsNode :=
  classification_decided_by_parent_reference bothHintsNode rfl rfl

/-- C8: in scenario C both category names referencing `P3` are retained
and emitted joined alphabetically as `"Classic | Specialty"`; in general
the emission sort is ascending and keeps exactly the collected names. -/
theorem categories_retained_and_joined_alphabetically :
    (collect_category_strings "P3" [] (collect_category_index scenarioCMenu)).1
      = "Classic | Specialty"
    ∧ ∀ (l : List String),
        (sortStr l).Pairwise (fun a b => pyStrLe a b = true)
        ∧ ∀ z : String, z ∈ sortStr l ↔ z ∈ l := by
  refine ⟨?_, fun l => ⟨sortStr_sorted l, fun z => mem_sortStr z l⟩⟩
  have hidx : collect_category_index scenarioCMenu =
      ⟨[("P3", ["Specialty", "Classic"])], [("P3", ["S", "C"])]⟩ := by
    simp [collect_category_index, scenarioCMenu, walkCatKids, walk_category, kidsOf,
          lookupF, jget, jOr, jTruthy, tidyJ, tidy, pyStrJ, wsTokens, pySplitRuns,
          splitRunsAux, codes_from_mixed, add_map, addToSetL, CAT_PRODUCT_KEYS]
    decide
  rw [hidx]
  decide

/-- C9 (counterexample): a store whose future raises is silently skipped
by `except Exception: pass` — the collected output of the run after a failing
store is identical to that after a store that succeeded with zero rows,
so per-target failures are not aggregated or reported in the run summary. -/
theorem store_failure_indistinguishable_from_empty :
    pp_collect [Except.error ()] = pp_collect [Except.ok []]
    ∧ pp_collect [Except.error ()] = [] :=
  ⟨rfl, rfl⟩

/-- C9 (amended): no failure of a single target aborts the run — collection
is total and the rows of every successful store are still collected, failing
stores contributing nothing — and the Pizza Hut runner aborts with a
terminal failure exactly when the initial hut list is empty; per-target
failures are, however, silently discarded rather than aggregated into the
run summary. -/
theorem failures_skipped_run_aborts_only_when_empty :
    (∀ (outcomes : List (Except Unit (List String))),
      pp_collect outcomes = (outcomes.map okRows).flatten)
    ∧ (∀ (huts : List String) (schedule : List (List (String × FetchOutcome))),
        ph_main huts schedule = Except.error () ↔ huts = []) := by
  constructor
  · intro outcomes
    have := pp_collect_foldl_aux outcomes []
    simpa [pp_collect] using this
  · intro huts schedule
    by_cases h : huts.isEmpty
    · simp [ph_main, h]
      exact List.isEmpty_iff.mp h
    · have hne : huts ≠ [] := fun he => h (by simp [he])
      simp [ph_main, h, hne]

/-- C10: every row the Pizza Pizza scraper writes has passed the
case-insensitive `"product"`-substring filter on `product_key`; the model
builder staging view applies the same predicate, keeps all
scraper-written rows, and every `product_key` reaching `dim_product` or
`fact_menu_price` satisfies the filter. -/
theorem product_key_filter_applied_at_write_and_stage :
    (∀ (rows : List PRow) (r : PRow), r ∈ pp_filter rows →
      pyIn "product" (lowerStr r.product_key) = false)
    ∧ (∀ (srows : List SRow) (r : SRow), r ∈ stg_rows srows →
        pyIn "product" (lowerStr (r.product_key.getD "")) = false)
    ∧ (∀ (rows : List PRow) (price : Option ℚ) (date : Option String),
        stg_rows ((pp_filter rows).map (toSRow price date))
          = (pp_filter rows).map (toSRow price date))
    ∧ (∀ (srows : List SRow) (k : Option String), k ∈ dim_product_keys srows →
        pyIn "product" (lowerStr (k.getD "")) = false)
    ∧ (∀ (srows : List SRow) (k : Option String), k ∈ fact_product_keys srows →
        pyIn "product" (lowerStr (k.getD "")) = false) := by
  refine ⟨?_, ?_, ?_, ?_, ?_⟩
  · intro rows r hr
    have h := (List.mem_filter.mp hr).2
    simpa [pp_keep] using h
  · intro srows r hr
    have h := (List.mem_filter.mp hr).2
    simpa [stg_keep] using h
  · intro rows price date
    apply List.filter_eq_self.mpr
    intro a ha
    rcases List.mem_map.mp ha with ⟨r, hr, rfl⟩
    have h := (List.mem_filter.mp hr).2
    simpa [stg_keep, toSRow, pp_keep] using h
  · intro srows k hk
    have hk2 : k ∈ (stg_rows srows).map (fun r => r.product_key) :=
      (mem_dedupAux _ _ _ hk).1
    rcases List.mem_map.mp hk2 with ⟨r, hr, rfl⟩
    have h := (List.mem_filter.mp hr).2
    simpa [stg_keep] using h
  · intro srows k hk
    rcases List.mem_map.mp hk with ⟨r, hr, rfl⟩
    have hr2 := (List.mem_filter.mp hr).1
    have h := (List.mem_filter.mp hr2).2
    simpa [stg_keep] using h

/-- Witness for the C10 theorem: a concrete written row passes the filter
(and the row whose key contains `"Product"` is dropped by `pp_filter`). -/
theorem product_key_filter_applied_at_write_and_stage_witness :
    pyIn "product" (lowerStr ppGoodRow.product_key) = false :=
  product_key_filter_applied_at_write_and_stage.1 [ppBadRow, ppGoodRow] ppGoodRow (by decide)

end PizzaPricing
